import Mathlib

/-!
Verification of the static blog builder `build.py`.

This file gives a shallow embedding, in Lean, of the core text-transformation
functions of the builder — `slugify`, `parse_date`, `parse_frontmatter`,
`inline_format` and `md_to_html` — and proves (or refutes) the frozen claims
about them.  Text is modelled as `List Char`; Python strings are translated
character by character.  Whitespace handling follows Python's behaviour on
the ASCII range; case mapping additionally covers the two non-ASCII code
points whose lowercase introduces characters the slug filter keeps.  Both
scopes are noted at the relevant definitions.
-/

set_option maxRecDepth 4000

abbrev LC := List Char

/-- Python whitespace predicate restricted to the ASCII range: the characters
stripped by `str.strip()` and matched by the regex class `\s`
(space, tab, newline, carriage return, vertical tab, form feed). -/
def isPySpace (c : Char) : Bool :=
  c == ' ' || c == '\t' || c == '\n' || c == '\r' || c == '\x0b' || c == '\x0c'

/-- Python `str.strip()` with no argument: drop leading and trailing
whitespace. -/
def pyStrip (s : LC) : LC :=
  ((s.dropWhile isPySpace).reverse.dropWhile isPySpace).reverse

/-- Python `str.rstrip()` seen on character lists: drop trailing
whitespace. -/
def pyRstrip (s : LC) : LC :=
  (s.reverse.dropWhile isPySpace).reverse

/-- Python `str.lower()` on one character, restricted to the ASCII range:
map `A`..`Z` (code points 65–90) to `a`..`z` and leave every other character
unchanged.  Base case of `pyLowerFull`; also used for the case-insensitive
month-name matching, where only ASCII names occur. -/
def pyLower (c : Char) : Char :=
  if 65 ≤ c.toNat ∧ c.toNat ≤ 90 then Char.ofNat (c.toNat + 32) else c

/-- Python `str.lower()` on one character, as it matters through the slug
character class `[a-z0-9\s-]`: the full Unicode lowercase mapping agrees
with the ASCII mapping except at characters whose lowercase also stays
outside the class (such characters are removed by the filter either way, so
the difference is invisible downstream).  The only code points whose
lowercase introduces characters kept by the class are U+212A (KELVIN SIGN,
which lowers to the ASCII letter `k`) and U+0130 (LATIN CAPITAL LETTER I
WITH DOT ABOVE, which lowers to `i` followed by combining U+0307); no
lowercase mapping produces digits, whitespace or hyphens.  These two are
mapped exactly. -/
def pyLowerFull (c : Char) : LC :=
  if c = '\u212A' then ['k']
  else if c = '\u0130' then ['i', '\u0307']
  else [pyLower c]

/-- ASCII lowercase letter `a`..`z` (code points 97–122), the `a-z` of the
slug character class. -/
def isLowerAZ (c : Char) : Bool :=
  Nat.ble 97 c.toNat && Nat.ble c.toNat 122

/-- ASCII letter of either case, `A`..`Z` or `a`..`z`. -/
def isAsciiAlpha (c : Char) : Bool :=
  (Nat.ble 65 c.toNat && Nat.ble c.toNat 90) || isLowerAZ c

/-- ASCII decimal digit `0`..`9` (code points 48–57), the `\d` and `0-9` of
the regex character classes. -/
def isDigitC (c : Char) : Bool :=
  Nat.ble 48 c.toNat && Nat.ble c.toNat 57

/-- Numeric value of an ASCII digit. -/
def digitVal (c : Char) : Nat := c.toNat - '0'.toNat

/-- Character class `[a-z0-9\s-]` of `slugify`'s first substitution:
the characters it keeps. -/
def slugAllowed (c : Char) : Bool :=
  isLowerAZ c || isDigitC c || isPySpace c || c == '-'

/-- The substitution `re.sub(r'[\s]+', '-', s)`: each maximal run of
whitespace is replaced by a single hyphen.  The boolean argument records
whether the previous character belonged to a whitespace run already
replaced. -/
def wsToDashAux : Bool → LC → LC
  | _, [] => []
  | prev, c :: cs =>
    if isPySpace c then
      (if prev then wsToDashAux true cs else '-' :: wsToDashAux true cs)
    else c :: wsToDashAux false cs

/-- The substitution `re.sub(r'-+', '-', s)`: each maximal run of hyphens is
replaced by a single hyphen.  The boolean argument records whether the
previous character belonged to a hyphen run already replaced. -/
def collapseDashAux : Bool → LC → LC
  | _, [] => []
  | prev, c :: cs =>
    if c = '-' then
      (if prev then collapseDashAux true cs else '-' :: collapseDashAux true cs)
    else c :: collapseDashAux false cs

/-- Python `str.strip('-')` applied from the right: remove trailing
hyphens. -/
def rstripDash : LC → LC
  | [] => []
  | c :: cs =>
    match rstripDash cs with
    | [] => if c = '-' then [] else [c]
    | r => c :: r

/-- Python `str.strip('-')`: remove leading and trailing hyphens. -/
def stripDash (s : LC) : LC :=
  rstripDash (s.dropWhile (fun c => c == '-'))

/-- The slug generator of `build.py` (`slugify`), on character lists:
lower-case, delete characters outside `[a-z0-9\s-]`, turn whitespace runs
into single hyphens, collapse hyphen runs, and strip hyphens at both
ends. -/
def slugifyL (l : LC) : LC :=
  stripDash (collapseDashAux false (wsToDashAux false ((l.flatMap pyLowerFull).filter slugAllowed)))

/-- The slug generator of `build.py` on strings. -/
def slugify (t : String) : String :=
  (slugifyL t.toList).asString

/-- Character that may appear in a finished slug: lowercase ASCII letter,
ASCII digit, or hyphen. -/
def charOK (c : Char) : Bool :=
  isLowerAZ c || isDigitC c || c == '-'

/-- A character list with no two adjacent hyphens. -/
def noDD : LC → Bool
  | [] => true
  | [_] => true
  | a :: b :: rest => !(a == '-' && b == '-') && noDD (b :: rest)

/- ── Date Normalizer (`parse_date`) ─────────────────────────────────── -/

/-- Sort key produced by the date normalizer: the (year, month, day) of the
`datetime` value (its time-of-day fields are always zero here). -/
structure Date where
  y : Nat
  m : Nat
  d : Nat
deriving DecidableEq, Repr

/-- `datetime.min`: the sentinel returned when no format matches. -/
def dtMin : Date := ⟨1, 1, 1⟩

/-- Comparison of the sort keys, the lexicographic order of `datetime`
values (all time fields being zero). -/
def dateLe (a b : Date) : Bool :=
  Nat.blt a.y b.y || (a.y == b.y && (Nat.blt a.m b.m || (a.m == b.m && Nat.ble a.d b.d)))

/-- Strict comparison of the sort keys. -/
def dateLt (a b : Date) : Bool :=
  Nat.blt a.y b.y || (a.y == b.y && (Nat.blt a.m b.m || (a.m == b.m && Nat.blt a.d b.d)))

/-- Gregorian leap-year test used by `datetime`'s day-of-month validation. -/
def isLeap (y : Nat) : Bool :=
  y % 4 == 0 && (y % 100 != 0 || y % 400 == 0)

/-- Number of days in a month, as validated by the `datetime` constructor. -/
def daysInMonth (y m : Nat) : Nat :=
  if m = 2 then (if isLeap y then 29 else 28)
  else if m = 4 ∨ m = 6 ∨ m = 9 ∨ m = 11 then 30 else 31

/-- The range checks performed when `strptime`'s field values are turned
into a `datetime` (`MINYEAR = 1`, `MAXYEAR = 9999`); a failure raises
`ValueError`, which `parse_date` treats as a non-match. -/
def dateValid (y mo d : Nat) : Bool :=
  Nat.ble 1 y && Nat.ble y 9999 && Nat.ble 1 mo && Nat.ble mo 12 &&
    Nat.ble 1 d && Nat.ble d (daysInMonth y mo)

/-- Case-insensitive match of a (lowercase) name against a prefix of the
input, as the `IGNORECASE` month-name alternatives of `strptime`'s regex do;
returns the rest of the input on success. -/
def ciPref : LC → LC → Option LC
  | [], rest => some rest
  | _ :: _, [] => none
  | n :: ns, c :: cs => if pyLower c = n then ciPref ns cs else none

/-- Full month names with their numbers, longest first — the order in which
`strptime` builds the `%B` regex alternation. -/
def monthsFull : List (LC × Nat) :=
  [("september".toList, 9), ("november".toList, 11), ("december".toList, 12),
   ("february".toList, 2), ("january".toList, 1), ("october".toList, 10),
   ("august".toList, 8), ("march".toList, 3), ("april".toList, 4),
   ("june".toList, 6), ("july".toList, 7), ("may".toList, 5)]

/-- Abbreviated month names with their numbers, for `%b` (all length 3). -/
def monthsAbbr : List (LC × Nat) :=
  [("jan".toList, 1), ("feb".toList, 2), ("mar".toList, 3), ("apr".toList, 4),
   ("may".toList, 5), ("jun".toList, 6), ("jul".toList, 7), ("aug".toList, 8),
   ("sep".toList, 9), ("oct".toList, 10), ("nov".toList, 11), ("dec".toList, 12)]

/-- Candidates for a month-name directive: each table entry whose name is a
case-insensitive prefix of the input, in the regex's alternation order. -/
def monthCands (tbl : List (LC × Nat)) (s : LC) : List (Nat × LC) :=
  tbl.filterMap (fun p => (ciPref p.1 s).map (fun r => (p.2, r)))

/-- Candidates for `%d`, the regex `3[01]|[12]\d|0[1-9]|[1-9]`, in
alternation (preference) order. -/
def dayCands (s : LC) : List (Nat × LC) :=
  (match s with
   | '3' :: x :: rest =>
     if x = '0' ∨ x = '1' then [(30 + digitVal x, rest)] else []
   | _ => []) ++
  (match s with
   | a :: x :: rest =>
     if (a = '1' ∨ a = '2') ∧ isDigitC x then [(10 * digitVal a + digitVal x, rest)] else []
   | _ => []) ++
  (match s with
   | '0' :: x :: rest =>
     if isDigitC x ∧ x ≠ '0' then [(digitVal x, rest)] else []
   | _ => []) ++
  (match s with
   | a :: rest =>
     if isDigitC a ∧ a ≠ '0' then [(digitVal a, rest)] else []
   | _ => [])

/-- Candidates for `%m`, the regex `1[0-2]|0[1-9]|[1-9]`, in alternation
order. -/
def mCands (s : LC) : List (Nat × LC) :=
  (match s with
   | '1' :: x :: rest =>
     if x = '0' ∨ x = '1' ∨ x = '2' then [(10 + digitVal x, rest)] else []
   | _ => []) ++
  (match s with
   | '0' :: x :: rest =>
     if isDigitC x ∧ x ≠ '0' then [(digitVal x, rest)] else []
   | _ => []) ++
  (match s with
   | a :: rest =>
     if isDigitC a ∧ a ≠ '0' then [(digitVal a, rest)] else []
   | _ => [])

/-- Candidates for `%Y`, the regex `\d\d\d\d`: exactly four digits. -/
def yCands (s : LC) : List (Nat × LC) :=
  match s with
  | a :: b :: c :: d :: rest =>
    if isDigitC a ∧ isDigitC b ∧ isDigitC c ∧ isDigitC d then
      [(1000 * digitVal a + 100 * digitVal b + 10 * digitVal c + digitVal d, rest)]
    else []
  | _ => []

/-- Candidates for a literal whitespace in the format string, which
`strptime` compiles to the greedy `\s+`: consume `k` whitespace characters
for `k` from the maximal run length down to 1. -/
def wsPlus (s : LC) : List LC :=
  let m := (s.takeWhile isPySpace).length
  (List.range m).reverse.map (fun k => s.drop (k + 1))

/-- Candidates for a literal character in the format string. -/
def litCand (c : Char) (s : LC) : List LC :=
  match s with
  | x :: rest => if x = c then [rest] else []
  | _ => []

/-- All regex matches of the format `'%B %d, %Y'` against a prefix of the
input, as (year, month, day, rest) in backtracking preference order. -/
def runFullMonth (s : LC) : List (Nat × Nat × Nat × LC) :=
  (monthCands monthsFull s).flatMap (fun mo =>
    (wsPlus mo.2).flatMap (fun r2 =>
      (dayCands r2).flatMap (fun d =>
        (litCand ',' d.2).flatMap (fun r4 =>
          (wsPlus r4).flatMap (fun r5 =>
            (yCands r5).map (fun y => (y.1, mo.1, d.1, y.2)))))))

/-- All regex matches of the format `'%Y-%m-%d'`. -/
def runIso (s : LC) : List (Nat × Nat × Nat × LC) :=
  (yCands s).flatMap (fun y =>
    (litCand '-' y.2).flatMap (fun r2 =>
      (mCands r2).flatMap (fun mo =>
        (litCand '-' mo.2).flatMap (fun r4 =>
          (dayCands r4).map (fun d => (y.1, mo.1, d.1, d.2))))))

/-- All regex matches of the format `'%b %d, %Y'`. -/
def runAbbrMonth (s : LC) : List (Nat × Nat × Nat × LC) :=
  (monthCands monthsAbbr s).flatMap (fun mo =>
    (wsPlus mo.2).flatMap (fun r2 =>
      (dayCands r2).flatMap (fun d =>
        (litCand ',' d.2).flatMap (fun r4 =>
          (wsPlus r4).flatMap (fun r5 =>
            (yCands r5).map (fun y => (y.1, mo.1, d.1, y.2)))))))

/-- All regex matches of the format `'%d %B %Y'`. -/
def runDayMonthYear (s : LC) : List (Nat × Nat × Nat × LC) :=
  (dayCands s).flatMap (fun d =>
    (wsPlus d.2).flatMap (fun r2 =>
      (monthCands monthsFull r2).flatMap (fun mo =>
        (wsPlus mo.2).flatMap (fun r4 =>
          (yCands r4).map (fun y => (y.1, mo.1, d.1, y.2))))))

/-- Completion of one `datetime.strptime` attempt: the regex engine commits
to its first (most preferred) match; `strptime` then raises unless the whole
input was consumed, and constructing the `datetime` validates the field
ranges.  Any failure means this format does not match. -/
def gate (cands : List (Nat × Nat × Nat × LC)) : Option Date :=
  match cands.head? with
  | some (y, mo, d, rest) =>
    if rest.isEmpty && dateValid y mo d then some ⟨y, mo, d⟩ else none
  | none => none

/-- `datetime.strptime(s, '%B %d, %Y')`, as `Option`. -/
def strptimeFullMonth (s : LC) : Option Date := gate (runFullMonth s)

/-- `datetime.strptime(s, '%Y-%m-%d')`, as `Option`. -/
def strptimeIso (s : LC) : Option Date := gate (runIso s)

/-- `datetime.strptime(s, '%b %d, %Y')`, as `Option`. -/
def strptimeAbbr (s : LC) : Option Date := gate (runAbbrMonth s)

/-- `datetime.strptime(s, '%d %B %Y')`, as `Option`. -/
def strptimeDMY (s : LC) : Option Date := gate (runDayMonthYear s)

/-- The date normalizer of `build.py` (`parse_date`): strip the input, try
the four formats in order, return the first successful parse, and fall back
to `datetime.min` when none matches. -/
def parse_date (s : String) : Date :=
  let t := pyStrip s.toList
  match strptimeFullMonth t with
  | some d => d
  | none =>
    match strptimeIso t with
    | some d => d
    | none =>
      match strptimeAbbr t with
      | some d => d
      | none =>
        match strptimeDMY t with
        | some d => d
        | none => dtMin

/- ── Frontmatter Splitter (`parse_frontmatter`) ──────────────────────── -/

/-- Python `str.split('\n')`: split on every newline, keeping empty pieces
(the result is never empty). -/
def splitNl : LC → List LC
  | [] => [[]]
  | c :: cs =>
    if c = '\n' then [] :: splitNl cs
    else
      match splitNl cs with
      | h :: t => (c :: h) :: t
      | [] => [[c]]

/-- The regex piece `\s*\n`: all ways to consume a (greedy, so longest
first) run of whitespace followed by a newline, each given by the remaining
input. -/
def wsStarNl (s : LC) : List LC :=
  let m := (s.takeWhile isPySpace).length
  ((List.range (m + 1)).reverse).filterMap (fun k =>
    match s.drop k with
    | '\n' :: rest => some rest
    | _ => none)

/-- Literal `\n---` of the frontmatter regex. -/
def nlDashes : LC := ['\n', '-', '-', '-']

/-- The regex piece `(.*?)\n---\s*\n` with `re.DOTALL`: the non-greedy
group grows one character at a time (accumulated reversed in `acc`); at each
position, if `\n---` follows and `\s*\n` can then be consumed, the match
succeeds with the most-preferred `\s*\n` candidate (what follows, `(.*)$`,
always matches); otherwise the group is extended. -/
def fmTail (acc : LC) : LC → Option (LC × LC)
  | [] => none
  | c :: cs =>
    (if nlDashes.isPrefixOf (c :: cs) then
       ((wsStarNl ((c :: cs).drop 4)).head?).map (fun rest => (acc.reverse, rest))
     else none).orElse
      (fun _ => fmTail (c :: acc) cs)

/-- The anchored frontmatter regex
`re.match(r'^---\s*\n(.*?)\n---\s*\n(.*)$', content, re.DOTALL)`:
on success, returns (group 1, group 2). -/
def fmMatch (s : LC) : Option (LC × LC) :=
  if ['-', '-', '-'].isPrefixOf s then
    (wsStarNl (s.drop 3)).findSome? (fun rest1 => fmTail [] rest1)
  else none

/-- Python dict insertion `meta[k] = v`: overwrite in place if the key is
present, else append. -/
def dictInsert (m : List (LC × LC)) (k v : LC) : List (LC × LC) :=
  if m.any (fun p => p.1 == k) then
    m.map (fun p => if p.1 == k then (k, v) else p)
  else m ++ [(k, v)]

/-- The metadata loop of `parse_frontmatter`: split group 1 on newlines;
for each line containing a colon, split at the first colon, key stripped and
lower-cased, value stripped. -/
def parseMeta (g1 : LC) : List (LC × LC) :=
  (splitNl g1).foldl (fun m line =>
    if line.contains ':' then
      dictInsert m ((pyStrip (line.takeWhile (fun c => c != ':'))).flatMap pyLowerFull)
        (pyStrip ((line.dropWhile (fun c => c != ':')).drop 1))
    else m) []

/-- The frontmatter splitter of `build.py` (`parse_frontmatter`): if the
delimiter regex does not match, return an empty mapping and the content
unchanged; otherwise parse group 1 into metadata and return group 2
stripped. -/
def parse_frontmatter (content : LC) : List (LC × LC) × LC :=
  match fmMatch content with
  | none => ([], content)
  | some (g1, g2) => (parseMeta g1, pyStrip g2)

/- ── Inline Formatter (`inline_format`) ──────────────────────────────── -/

/-- Non-greedy body of a pattern `X(.+?)Y`: starting at the current
position, the shortest non-empty run of non-newline characters followed by
the literal closer; returns (body, rest after the closer). -/
def findBody (cl : LC) : LC → Option (LC × LC)
  | [] => none
  | c :: cs =>
    if c = '\n' then none
    else if cl.isPrefixOf cs then some ([c], cs.drop cl.length)
    else
      match findBody cl cs with
      | some (b, r) => some (c :: b, r)
      | none => none

/-- One `re.sub` pass for a pattern `OP(.+?)CL` with replacement
`pre\1post`: scan left to right, replace each match, and continue after the
consumed text (replacements are not rescanned within a pass).  The fuel
argument, set to the input length, only certifies termination: each match
consumes at least opener, one body character and closer. -/
def scanSubF (op cl pre post : LC) : Nat → LC → LC
  | _, [] => []
  | 0, s => s
  | fuel + 1, c :: cs =>
    if op.isPrefixOf (c :: cs) then
      match findBody cl ((c :: cs).drop op.length) with
      | some (b, r) => pre ++ b ++ post ++ scanSubF op cl pre post fuel r
      | none => c :: scanSubF op cl pre post fuel cs
    else c :: scanSubF op cl pre post fuel cs

/-- One `re.sub` pass for `OP(.+?)CL` ↦ `pre\1post`. -/
def scanSub (op cl pre post : LC) (s : LC) : LC :=
  scanSubF op cl pre post s.length s

/-- Match of the link pattern tail `(.+?)\]\((.+?)\)` (after the opening
bracket): grow group 1 one character at a time; where `](` follows, try to
finish with group 2 and its closing parenthesis, else backtrack by extending
group 1.  Returns (text, url, rest). -/
def findLink : LC → Option (LC × LC × LC)
  | [] => none
  | c :: cs =>
    if c = '\n' then none
    else
      let ext :=
        match findLink cs with
        | some (b1, b2, r) => some (c :: b1, b2, r)
        | none => none
      if [']', '('].isPrefixOf cs then
        match findBody [')'] (cs.drop 2) with
        | some (b2, r) => some ([c], b2, r)
        | none => ext
      else ext

/-- The link pass `re.sub(r'\[(.+?)\]\((.+?)\)', r'<a href="\2">\1</a>', s)`:
scan for an opening bracket whose tail matches the link pattern.  Fuel as in
`scanSubF`. -/
def linkScanF : Nat → LC → LC
  | _, [] => []
  | 0, s => s
  | fuel + 1, c :: cs =>
    if c = '[' then
      match findLink cs with
      | some (b1, b2, r) =>
        "<a href=\"".toList ++ b2 ++ "\">".toList ++ b1 ++ "</a>".toList ++ linkScanF fuel r
      | none => c :: linkScanF fuel cs
    else c :: linkScanF fuel cs

/-- The inline formatter of `build.py` (`inline_format`), on character
lists: the five substitution passes in their fixed order — bold+italic,
bold, italic, inline code, links. -/
def inlineFormat (s : LC) : LC :=
  let s1 := scanSub "***".toList "***".toList "<strong><em>".toList "</em></strong>".toList s
  let s2 := scanSub "**".toList "**".toList "<strong>".toList "</strong>".toList s1
  let s3 := scanSub "*".toList "*".toList "<em>".toList "</em>".toList s2
  let s4 := scanSub "`".toList "`".toList "<code>".toList "</code>".toList s3
  linkScanF s4.length s4

/-- The inline formatter on strings. -/
def inline_format (s : String) : String :=
  (inlineFormat s.toList).asString

/- ── Block Converter (`md_to_html`) ──────────────────────────────────── -/

/-- Python `html.escape(s)` (with its default `quote=True`): rewrite `&`,
`<`, `>`, `"` and the apostrophe to entities.  The sequential `str.replace`
calls of the implementation touch disjoint characters apart from the leading
`&` pass, so they amount to this single character map. -/
def escChar (c : Char) : LC :=
  if c = '&' then "&amp;".toList
  else if c = '<' then "&lt;".toList
  else if c = '>' then "&gt;".toList
  else if c = '"' then "&quot;".toList
  else if c = '\'' then "&#x27;".toList
  else [c]

/-- Python `html.escape` on a whole line. -/
def htmlEscape (s : LC) : LC := s.flatMap escChar

/-- The mutable locals of `md_to_html`: the emitted fragments and the five
block-mode flags (`bq_lines` is the blockquote accumulator). -/
structure MdState where
  result : List LC
  in_list : Bool
  in_ol : Bool
  in_code : Bool
  in_blockquote : Bool
  bq_lines : List LC
deriving DecidableEq, Repr

/-- The initial state of `md_to_html`'s loop. -/
def initState : MdState := ⟨[], false, false, false, false, []⟩

/-- The nested `flush_blockquote`: if a blockquote is open, join its lines
with spaces, inline-format the result, emit one blockquote fragment, and
reset the mode. -/
def flushBq (st : MdState) : MdState :=
  if st.in_blockquote then
    { st with
      result := st.result ++
        ["<blockquote><p>".toList ++ inlineFormat (List.intercalate [' '] st.bq_lines) ++
          "</p></blockquote>".toList],
      in_blockquote := false, bq_lines := [] }
  else st

/-- The heading regex `re.match(r'^(#{1,3})\s+(.+)', stripped)`: one to
three leading hashes, then `\s+(.+)` with the greedy run of whitespace
backtracking until the remaining group is non-empty (`.` does not match a
newline).  Returns (heading level, group 2). -/
def headingMatch (s : LC) : Option (Nat × LC) :=
  let n := (s.takeWhile (fun c => c == '#')).length
  if 1 ≤ n ∧ n ≤ 3 then
    (let rest := s.drop n
     let w := (rest.takeWhile isPySpace).length
     ((List.range w).reverse.map (fun k => k + 1)).findSome? (fun j =>
       let g := (rest.drop j).takeWhile (fun c => c != '\n')
       if g.isEmpty then none else some g)).map
      (fun txt => (min (n + 1) 4, txt))
  else none

/-- The horizontal-rule test `stripped in ('---', '***', '___') and
len(stripped) >= 3` (the length conjunct is vacuous but kept from the
source). -/
def hrMatch (s : LC) : Prop :=
  (s = "---".toList ∨ s = "***".toList ∨ s = "___".toList) ∧ 3 ≤ s.length

instance (s : LC) : Decidable (hrMatch s) := by
  unfold hrMatch; infer_instance

/-- The unordered-list item regex `re.match(r'^[-*]\s+', stripped)`. -/
def ulMatch (s : LC) : Bool :=
  match s with
  | c :: d :: _ => (c == '-' || c == '*') && isPySpace d
  | _ => false

/-- The marker strip `re.sub(r'^[-*]\s+', '', stripped)` (on a matching
line): drop the marker and the greedy whitespace run. -/
def ulContent (s : LC) : LC :=
  (s.drop 1).dropWhile isPySpace

/-- The ordered-list item regex `re.match(r'^\d+\.\s+', stripped)`. -/
def olMatch (s : LC) : Bool :=
  let ds := s.takeWhile isDigitC
  !ds.isEmpty &&
    (match s.drop ds.length with
     | '.' :: w :: _ => isPySpace w
     | _ => false)

/-- The marker strip `re.sub(r'^\d+\.\s+', '', stripped)` (on a matching
line). -/
def olContent (s : LC) : LC :=
  (((s.dropWhile isDigitC).drop 1).dropWhile isPySpace)

/-- A list-item fragment `<li>...</li>` with inline-formatted content. -/
def liFrag (content : LC) : LC :=
  "<li>".toList ++ inlineFormat content ++ "</li>".toList

/-- A paragraph fragment `<p>...</p>` with inline-formatted content. -/
def pFrag (content : LC) : LC :=
  "<p>".toList ++ inlineFormat content ++ "</p>".toList

/-- A heading fragment `<hN>...</hN>`. -/
def hFrag (lvl : Nat) (txt : LC) : LC :=
  "<h".toList ++ (Nat.toDigits 10 lvl) ++ ">".toList ++ inlineFormat txt ++
    "</h".toList ++ (Nat.toDigits 10 lvl) ++ ">".toList

/-- The unordered-list branch: open `<ul>` when not already in the mode,
then emit the item. -/
def ulBranch (st : MdState) (stripped : LC) : MdState :=
  if st.in_list then { st with result := st.result ++ [liFrag (ulContent stripped)] }
  else { st with result := st.result ++ ["<ul>".toList, liFrag (ulContent stripped)], in_list := true }

/-- The ordered-list branch: open `<ol>` when not already in the mode, then
emit the item. -/
def olBranch (st : MdState) (stripped : LC) : MdState :=
  if st.in_ol then { st with result := st.result ++ [liFrag (olContent stripped)] }
  else { st with result := st.result ++ ["<ol>".toList, liFrag (olContent stripped)], in_ol := true }

/-- The `elif in_list:` exit: a line that is not an unordered-list item
closes an open `<ul>`. -/
def closeUl (st : MdState) : MdState :=
  if st.in_list then { st with result := st.result ++ ["</ul>".toList], in_list := false } else st

/-- The `elif in_ol:` exit. -/
def closeOl (st : MdState) : MdState :=
  if st.in_ol then { st with result := st.result ++ ["</ol>".toList], in_ol := false } else st

/-- The branches evaluated after the blockquote flush, in source order:
heading, horizontal rule, unordered list (else close), ordered list (else
close), blank line, paragraph. -/
def afterFlush (st : MdState) (stripped : LC) : MdState :=
  match headingMatch stripped with
  | some (lvl, txt) => { st with result := st.result ++ [hFrag lvl txt] }
  | none =>
    if hrMatch stripped then { st with result := st.result ++ ["<hr>".toList] }
    else if ulMatch stripped then ulBranch st stripped
    else
      let st1 := closeUl st
      if olMatch stripped then olBranch st1 stripped
      else
        let st2 := closeOl st1
        if stripped.isEmpty then st2
        else { st2 with result := st2.result ++ [pFrag stripped] }

/-- One iteration of `md_to_html`'s `for line in lines` loop, in source
order: code-fence toggle, code-fence body, blockquote accumulation, then
(after flushing any open blockquote) the remaining branches. -/
def processLine (st : MdState) (line : LC) : MdState :=
  let stripped := pyStrip line
  if ("```".toList).isPrefixOf stripped then
    (if st.in_code then { st with result := st.result ++ ["</code></pre>".toList], in_code := false }
     else { st with result := st.result ++ ["<pre><code>".toList], in_code := true })
  else if st.in_code then { st with result := st.result ++ [htmlEscape line] }
  else if (['>', ' ']).isPrefixOf stripped then
    (if st.in_blockquote then { st with bq_lines := st.bq_lines ++ [stripped.drop 2] }
     else { st with in_blockquote := true, bq_lines := [stripped.drop 2] })
  else afterFlush (flushBq st) stripped

/-- Finalization of `md_to_html`: flush a pending blockquote and close any
open list, ordered list or code fence, in that order. -/
def finalize (st : MdState) : List LC :=
  let st1 := flushBq st
  let r1 := if st1.in_list then st1.result ++ ["</ul>".toList] else st1.result
  let r2 := if st1.in_ol then r1 ++ ["</ol>".toList] else r1
  if st1.in_code then r2 ++ ["</code></pre>".toList] else r2

/-- The block converter on a list of lines: the emitted fragment stream. -/
def mdLines (ls : List LC) : List LC :=
  finalize (ls.foldl processLine initState)

/-- The Markdown converter of `build.py` (`md_to_html`): split the text on
newlines, run the loop, and join the fragments with the cosmetic
newline-and-indentation separator. -/
def md_to_html (text : String) : String :=
  (List.intercalate ('\n' :: "          ".toList) (mdLines (splitNl text.toList))).asString

/-- Number of positions at which `pat` occurs in a character list (used to
state the "exactly one span" properties). -/
def countSub (pat : LC) : LC → Nat
  | [] => 0
  | c :: cs => (if pat.isPrefixOf (c :: cs) then 1 else 0) + countSub pat cs

/- ════════════════════════ Lemmas: slug generator ═══════════════════════ -/

theorem toNat_le_of_isPySpace {c : Char} (h : isPySpace c = true) : c.toNat ≤ 32 := by
  simp [isPySpace, Bool.or_eq_true, beq_iff_eq] at h
  rcases h with ((((h | h) | h) | h) | h) | h <;> subst h <;> decide

theorem charOK_bounds {c : Char} (h : charOK c = true) :
    c.toNat = 45 ∨ (48 ≤ c.toNat ∧ c.toNat ≤ 57) ∨ (97 ≤ c.toNat ∧ c.toNat ≤ 122) := by
  simp [charOK, isLowerAZ, isDigitC, Bool.or_eq_true, Nat.ble_eq, beq_iff_eq] at h
  rcases h with (h | h) | h
  · exact Or.inr (Or.inr h)
  · exact Or.inr (Or.inl h)
  · subst h; exact Or.inl rfl

theorem isPySpace_false_of_charOK {c : Char} (h : charOK c = true) : isPySpace c = false := by
  by_contra h'
  have h1 : isPySpace c = true := by
    cases h2 : isPySpace c
    · exact absurd h2 h'
    · rfl
  have := toNat_le_of_isPySpace h1
  rcases charOK_bounds h with h3 | h3 | h3 <;> omega

theorem pyLower_fix {c : Char} (h : charOK c = true) : pyLower c = c := by
  unfold pyLower
  rw [if_neg]
  rintro ⟨h1, h2⟩
  rcases charOK_bounds h with h3 | h3 | h3 <;> omega

theorem flatMap_fix (l : LC) (f : Char → LC) (h : ∀ c ∈ l, f c = [c]) :
    l.flatMap f = l := by
  induction l with
  | nil => rfl
  | cons a as ih =>
    have hstep : (a :: as).flatMap f = f a ++ as.flatMap f := rfl
    rw [hstep, h a (List.mem_cons_self _ _),
      ih (fun c hc => h c (List.mem_cons_of_mem _ hc))]
    rfl

theorem pyLowerFull_fix {c : Char} (h : charOK c = true) : pyLowerFull c = [c] := by
  have hk : c ≠ '\u212A' := by
    intro he
    subst he
    exact absurd (charOK_bounds h) (by decide)
  have hi : c ≠ '\u0130' := by
    intro he
    subst he
    exact absurd (charOK_bounds h) (by decide)
  unfold pyLowerFull
  rw [if_neg hk, if_neg hi, pyLower_fix h]

theorem charOK_of_slugAllowed {c : Char} (h1 : slugAllowed c = true)
    (h2 : isPySpace c = false) : charOK c = true := by
  simp [slugAllowed, Bool.or_eq_true] at h1
  simp [charOK, Bool.or_eq_true]
  rcases h1 with ((h | h) | h) | h
  · exact Or.inl (Or.inl h)
  · exact Or.inl (Or.inr h)
  · rw [h] at h2; cases h2
  · exact Or.inr h

theorem mem_wsToDashAux {c : Char} :
    ∀ (b : Bool) (s : LC), c ∈ wsToDashAux b s → c = '-' ∨ (c ∈ s ∧ isPySpace c = false) := by
  intro b s
  induction s generalizing b with
  | nil => intro h; simp [wsToDashAux] at h
  | cons a as ih =>
    intro h
    by_cases ha : isPySpace a
    · cases b with
      | true =>
        simp [wsToDashAux, ha] at h
        rcases ih true h with h1 | ⟨h2, h3⟩
        · exact Or.inl h1
        · exact Or.inr ⟨List.mem_cons_of_mem _ h2, h3⟩
      | false =>
        simp [wsToDashAux, ha] at h
        rcases h with h | h
        · exact Or.inl h
        · rcases ih true h with h1 | ⟨h2, h3⟩
          · exact Or.inl h1
          · exact Or.inr ⟨List.mem_cons_of_mem _ h2, h3⟩
    · have ha' : isPySpace a = false := by
        cases h2 : isPySpace a
        · rfl
        · exact absurd h2 ha
      simp [wsToDashAux, ha'] at h
      rcases h with h | h
      · subst h; exact Or.inr ⟨List.mem_cons_self _ _, ha'⟩
      · rcases ih false h with h1 | ⟨h2, h3⟩
        · exact Or.inl h1
        · exact Or.inr ⟨List.mem_cons_of_mem _ h2, h3⟩

theorem mem_collapseDashAux {c : Char} :
    ∀ (b : Bool) (s : LC), c ∈ collapseDashAux b s → c = '-' ∨ c ∈ s := by
  intro b s
  induction s generalizing b with
  | nil => intro h; simp [collapseDashAux] at h
  | cons a as ih =>
    intro h
    by_cases ha : a = '-'
    · subst ha
      cases b with
      | true =>
        simp [collapseDashAux] at h
        rcases ih true h with h1 | h1
        · exact Or.inl h1
        · exact Or.inr (List.mem_cons_of_mem _ h1)
      | false =>
        simp [collapseDashAux] at h
        rcases h with h | h
        · exact Or.inl h
        · rcases ih true h with h1 | h1
          · exact Or.inl h1
          · exact Or.inr (List.mem_cons_of_mem _ h1)
    · simp [collapseDashAux, ha] at h
      rcases h with h | h
      · subst h; exact Or.inr (List.mem_cons_self _ _)
      · rcases ih false h with h1 | h1
        · exact Or.inl h1
        · exact Or.inr (List.mem_cons_of_mem _ h1)

theorem mem_rstripDash {c : Char} : ∀ {s : LC}, c ∈ rstripDash s → c ∈ s := by
  intro s
  induction s with
  | nil => intro h; simp [rstripDash] at h
  | cons a as ih =>
    intro h
    cases h' : rstripDash as with
    | nil =>
      simp only [rstripDash, h'] at h
      by_cases ha : a = '-'
      · simp [ha] at h
      · simp [ha] at h; simp [h]
    | cons r0 rs =>
      simp only [rstripDash, h'] at h
      rcases List.mem_cons.mp h with h1 | h1
      · simp [h1]
      · exact List.mem_cons_of_mem _ (ih (h' ▸ h1))

theorem mem_dropWhile {c : Char} {p : Char → Bool} :
    ∀ {s : LC}, c ∈ s.dropWhile p → c ∈ s := by
  intro s
  induction s with
  | nil => intro h; simp [List.dropWhile] at h
  | cons a as ih =>
    intro h
    by_cases hp : p a
    · simp only [List.dropWhile, hp, if_true] at h
      exact List.mem_cons_of_mem _ (ih h)
    · have hp' : p a = false := by
        cases h2 : p a
        · rfl
        · exact absurd h2 hp
      simp only [List.dropWhile, hp', Bool.false_eq_true, if_false] at h
      exact h

theorem noDD_tail {a : Char} {s : LC} (h : noDD (a :: s) = true) : noDD s = true := by
  cases s with
  | nil => rfl
  | cons b t =>
    simp only [noDD, Bool.and_eq_true] at h
    exact h.2

theorem collapseDashAux_noDD : ∀ s : LC,
    noDD (collapseDashAux false s) = true ∧
    noDD (collapseDashAux true s) = true ∧
    (collapseDashAux true s).head? ≠ some '-' := by
  intro s
  induction s with
  | nil => simp [collapseDashAux, noDD]
  | cons a as ih =>
    obtain ⟨ih1, ih2, ih3⟩ := ih
    by_cases ha : a = '-'
    · subst ha
      refine ⟨?_, ?_, ?_⟩
      · simp only [collapseDashAux, if_pos rfl, if_neg (by simp : ¬(false = true))]
        cases h' : collapseDashAux true as with
        | nil => simp [noDD]
        | cons r0 rs =>
          rw [h'] at ih2 ih3
          have hr0 : (r0 == '-') = false := by
            cases hb : r0 == '-'
            · rfl
            · exact absurd (by simp [beq_iff_eq.mp hb]) ih3
          simp [noDD, hr0, ih2]
      · simp only [collapseDashAux, if_pos rfl, if_pos rfl]
        exact ih2
      · simp only [collapseDashAux, if_pos rfl, if_pos rfl]
        exact ih3
    · refine ⟨?_, ?_, ?_⟩
      · simp only [collapseDashAux, if_neg ha]
        cases h' : collapseDashAux false as with
        | nil => simp [noDD]
        | cons r0 rs =>
          rw [h'] at ih1
          have hane : (a == '-') = false := by
            cases hb : a == '-'
            · rfl
            · exact absurd (beq_iff_eq.mp hb) ha
          simp [noDD, hane, ih1]
      · simp only [collapseDashAux, if_neg ha]
        cases h' : collapseDashAux false as with
        | nil => simp [noDD]
        | cons r0 rs =>
          rw [h'] at ih1
          have hane : (a == '-') = false := by
            cases hb : a == '-'
            · rfl
            · exact absurd (beq_iff_eq.mp hb) ha
          simp [noDD, hane, ih1]
      · simp only [collapseDashAux, if_neg ha]
        simp [ha]

theorem noDD_dropWhile {p : Char → Bool} : ∀ {s : LC}, noDD s = true →
    noDD (s.dropWhile p) = true := by
  intro s
  induction s with
  | nil => intro h; exact h
  | cons a as ih =>
    intro h
    by_cases hp : p a
    · simp only [List.dropWhile, hp, if_true]
      exact ih (noDD_tail h)
    · have hp' : p a = false := by
        cases h2 : p a
        · rfl
        · exact absurd h2 hp
      simpa [List.dropWhile, hp'] using h

theorem rstripDash_headEq : ∀ {s : LC}, rstripDash s ≠ [] →
    (rstripDash s).head? = s.head? := by
  intro s
  induction s with
  | nil => intro h; exact absurd rfl h
  | cons a as ih =>
    intro h
    cases h' : rstripDash as with
    | nil =>
      simp only [rstripDash, h'] at h ⊢
      by_cases ha : a = '-'
      · rw [if_pos ha] at h; exact absurd rfl h
      · rw [if_neg ha]; rfl
    | cons r0 rs =>
      simp only [rstripDash, h']
      rfl

theorem noDD_rstripDash : ∀ {s : LC}, noDD s = true → noDD (rstripDash s) = true := by
  intro s
  induction s with
  | nil => intro h; exact h
  | cons a as ih =>
    intro h
    cases h' : rstripDash as with
    | nil =>
      simp only [rstripDash, h']
      by_cases ha : a = '-'
      · rw [if_pos ha]; rfl
      · rw [if_neg ha]; rfl
    | cons r0 rs =>
      simp only [rstripDash, h']
      cases as with
      | nil => simp [rstripDash] at h'
      | cons b bs =>
        have hhead : (rstripDash (b :: bs)).head? = (b :: bs).head? :=
          rstripDash_headEq (by rw [h']; exact List.cons_ne_nil _ _)
        rw [h'] at hhead
        have hr0 : r0 = b := by simpa using hhead
        have hnd : noDD (rstripDash (b :: bs)) = true := ih (noDD_tail h)
        rw [h'] at hnd
        simp only [noDD, Bool.and_eq_true] at h ⊢
        refine ⟨?_, hnd⟩
        rw [hr0]
        exact h.1

theorem rstripDash_idem : ∀ (s : LC), rstripDash (rstripDash s) = rstripDash s := by
  intro s
  induction s with
  | nil => rfl
  | cons a as ih =>
    cases h' : rstripDash as with
    | nil =>
      simp only [rstripDash, h']
      by_cases ha : a = '-'
      · rw [if_pos ha]; rfl
      · rw [if_neg ha]; simp [rstripDash, if_neg ha]
    | cons r0 rs =>
      have this1 : rstripDash (r0 :: rs) = r0 :: rs := by rw [← h', ih, h']
      have step : ∀ (x : Char) (t : LC), rstripDash t = r0 :: rs →
          rstripDash (x :: t) = x :: r0 :: rs := by
        intro x t ht
        simp only [rstripDash, ht]
      rw [step a as h', step a (r0 :: rs) this1]

theorem map_fix (l : LC) (f : Char → Char) (h : ∀ c ∈ l, f c = c) : l.map f = l := by
  induction l with
  | nil => rfl
  | cons a as ih =>
    simp only [List.map_cons, List.cons.injEq]
    exact ⟨h a (List.mem_cons_self _ _), ih (fun c hc => h c (List.mem_cons_of_mem _ hc))⟩

theorem filter_fix (l : LC) (p : Char → Bool) (h : ∀ c ∈ l, p c = true) :
    l.filter p = l := by
  induction l with
  | nil => rfl
  | cons a as ih =>
    simp only [List.filter_cons, h a (List.mem_cons_self _ _), if_true]
    rw [ih (fun c hc => h c (List.mem_cons_of_mem _ hc))]

theorem wsToDashAux_fix : ∀ (b : Bool) (s : LC), (∀ c ∈ s, isPySpace c = false) →
    wsToDashAux b s = s := by
  intro b s
  induction s generalizing b with
  | nil => intro _; rfl
  | cons a as ih =>
    intro h
    have ha := h a (List.mem_cons_self _ _)
    simp only [wsToDashAux, ha, Bool.false_eq_true, if_false]
    rw [ih false (fun c hc => h c (List.mem_cons_of_mem _ hc))]

theorem collapseDashAux_fix : ∀ (s : LC), noDD s = true →
    collapseDashAux false s = s ∧ (s.head? ≠ some '-' → collapseDashAux true s = s) := by
  intro s
  induction s with
  | nil => exact fun _ => ⟨rfl, fun _ => rfl⟩
  | cons a as ih =>
    intro h
    obtain ⟨ih1, ih2⟩ := ih (noDD_tail h)
    constructor
    · by_cases ha : a = '-'
      · subst ha
        have inner : collapseDashAux false ('-' :: as) = '-' :: collapseDashAux true as := by
          simp [collapseDashAux]
        rw [inner]
        simp only [List.cons.injEq, true_and]
        apply ih2
        cases as with
        | nil => simp
        | cons b bs =>
          simp only [noDD, Bool.and_eq_true] at h
          have hb : (b == '-') = false := by
            rcases h with ⟨h1, -⟩
            cases hbb : b == '-'
            · rfl
            · rw [hbb] at h1; simp at h1
          intro hbe
          simp only [List.head?_cons] at hbe
          injection hbe with hb2
          rw [hb2] at hb
          simp at hb
      · simp only [collapseDashAux, if_neg ha, List.cons.injEq, true_and]
        exact ih1
    · intro hh
      have ha : ¬ a = '-' := by
        intro hae
        apply hh
        rw [hae]
        rfl
      simp only [collapseDashAux, if_neg ha, if_pos rfl, List.cons.injEq, true_and]
      exact ih1

theorem head_dropWhile_false {p : Char → Bool} :
    ∀ {s : LC} {c : Char}, (s.dropWhile p).head? = some c → p c = false := by
  intro s
  induction s with
  | nil => intro c h; simp [List.dropWhile] at h
  | cons a as ih =>
    intro c h
    by_cases hp : p a
    · simp only [List.dropWhile, hp, if_true] at h
      exact ih h
    · have hp' : p a = false := by
        cases h2 : p a
        · rfl
        · exact absurd h2 hp
      simp only [List.dropWhile, hp', Bool.false_eq_true, if_false, List.head?_cons,
        Option.some.injEq] at h
      rw [← h]
      exact hp'

theorem dropWhile_fix {p : Char → Bool} {s : LC}
    (h : ∀ c, s.head? = some c → p c = false) : s.dropWhile p = s := by
  cases s with
  | nil => rfl
  | cons a as =>
    have := h a rfl
    simp [List.dropWhile, this]

theorem slug_charOK {l : LC} : ∀ c ∈ slugifyL l, charOK c = true := by
  intro c hc
  unfold slugifyL stripDash at hc
  have hc1 := mem_dropWhile (mem_rstripDash hc)
  rcases mem_collapseDashAux _ _ hc1 with h1 | h1
  · subst h1; decide
  · rcases mem_wsToDashAux _ _ h1 with h2 | ⟨h2, h3⟩
    · subst h2; decide
    · exact charOK_of_slugAllowed (List.of_mem_filter h2) h3

theorem slug_noDD {l : LC} : noDD (slugifyL l) = true :=
  noDD_rstripDash (noDD_dropWhile (collapseDashAux_noDD _).1)

theorem slug_head {l : LC} : ∀ c, (slugifyL l).head? = some c → (c == '-') = false := by
  intro c hc
  have hne : slugifyL l ≠ [] := by
    intro h0
    rw [h0] at hc
    simp at hc
  unfold slugifyL stripDash at hc hne
  rw [rstripDash_headEq hne] at hc
  exact head_dropWhile_false (p := fun x => x == '-') hc

theorem slug_rstrip_fix {l : LC} : rstripDash (slugifyL l) = slugifyL l := by
  unfold slugifyL stripDash
  exact rstripDash_idem _

theorem slugifyL_idem (l : LC) : slugifyL (slugifyL l) = slugifyL l := by
  have hOK := slug_charOK (l := l)
  have h1 : (slugifyL l).flatMap pyLowerFull = slugifyL l :=
    flatMap_fix _ _ (fun c hc => pyLowerFull_fix (hOK c hc))
  have h2 : (slugifyL l).filter slugAllowed = slugifyL l :=
    filter_fix _ _ (fun c hc => by
      have hck := hOK c hc
      simp only [charOK, Bool.or_eq_true] at hck
      simp only [slugAllowed, Bool.or_eq_true]
      rcases hck with (h | h) | h
      · exact Or.inl (Or.inl (Or.inl h))
      · exact Or.inl (Or.inl (Or.inr h))
      · exact Or.inr h)
  have h3 : wsToDashAux false (slugifyL l) = slugifyL l :=
    wsToDashAux_fix _ _ (fun c hc => isPySpace_false_of_charOK (hOK c hc))
  have h4 : collapseDashAux false (slugifyL l) = slugifyL l :=
    (collapseDashAux_fix _ slug_noDD).1
  have h5 : (slugifyL l).dropWhile (fun c => c == '-') = slugifyL l :=
    dropWhile_fix (fun c hc => slug_head c hc)
  show stripDash (collapseDashAux false (wsToDashAux false
      (((slugifyL l).flatMap pyLowerFull).filter slugAllowed))) = slugifyL l
  rw [h1, h2, h3, h4]
  show rstripDash ((slugifyL l).dropWhile (fun c => c == '-')) = slugifyL l
  rw [h5]
  exact slug_rstrip_fix

theorem collapse_alldash : ∀ (s : LC), (∀ c ∈ s, c = '-') →
    collapseDashAux true s = [] ∧
      (collapseDashAux false s = [] ∨ collapseDashAux false s = ['-']) := by
  intro s
  induction s with
  | nil => exact fun _ => ⟨rfl, Or.inl rfl⟩
  | cons a as ih =>
    intro h
    have ha := h a (List.mem_cons_self _ _)
    subst ha
    obtain ⟨ih1, -⟩ := ih (fun c hc => h c (List.mem_cons_of_mem _ hc))
    constructor
    · simpa [collapseDashAux] using ih1
    · right
      simp [collapseDashAux, ih1]

/- ════════════════════════ Claim theorems: C9, C10 ══════════════════════ -/

/-- C9: for every title string, applying the slug generator to its own
output leaves it unchanged — `slugify (slugify title) = slugify title`, so
every generated slug is a fixed point of `slugify`. -/
theorem c9_slugify_idempotent (t : String) : slugify (slugify t) = slugify t := by
  unfold slugify
  have h : ((slugifyL t.toList).asString).toList = slugifyL t.toList := rfl
  rw [h, slugifyL_idem]

theorem isAsciiAlpha_of_upper {c : Char} (h1 : 65 ≤ c.toNat) (h2 : c.toNat ≤ 90) :
    isAsciiAlpha c = true := by
  simp only [isAsciiAlpha, isLowerAZ, Bool.or_eq_true, Bool.and_eq_true, Nat.ble_eq]
  exact Or.inl ⟨h1, h2⟩

/-- Counterexample to C10 as stated: the one-character title U+212A (KELVIN
SIGN) contains no ASCII letter and no digit, yet Python lower-cases it to
the ASCII letter `k`, which the slug character class keeps — the slug is
`"k"`, not the empty string. -/
theorem c10_kelvin_sign_nonempty_slug :
    (∀ c ∈ "\u212A".toList, isAsciiAlpha c = false ∧ isDigitC c = false) ∧
    slugify "\u212A" = "k" ∧ slugify "\u212A" ≠ "" := by
  refine ⟨by decide, by decide, by decide⟩

/-- C10, corrected: a title containing no ASCII letter, no digit, and none
of the two characters whose Unicode lowercase introduces an ASCII letter
(U+212A and U+0130) slugifies to the empty string, so the filename stem
derived from it is empty. -/
theorem c10_slug_empty_no_alnum (t : String)
    (h : ∀ c ∈ t.toList, isAsciiAlpha c = false ∧ isDigitC c = false ∧
      c ≠ '\u212A' ∧ c ≠ '\u0130') :
    slugify t = "" := by
  have hmap : t.toList.flatMap pyLowerFull = t.toList := by
    apply flatMap_fix
    intro c hc
    obtain ⟨ha, -, hk, hi⟩ := h c hc
    unfold pyLowerFull
    rw [if_neg hk, if_neg hi]
    have hfix : pyLower c = c := by
      unfold pyLower
      rw [if_neg]
      rintro ⟨h1, h2⟩
      rw [isAsciiAlpha_of_upper h1 h2] at ha
      cases ha
    rw [hfix]
  have hfil : ∀ c ∈ (t.toList.flatMap pyLowerFull).filter slugAllowed,
      isPySpace c = true ∨ c = '-' := by
    intro c hc
    have hsa := List.of_mem_filter hc
    have hct : c ∈ t.toList := by
      rw [hmap] at hc
      exact List.mem_of_mem_filter hc
    obtain ⟨ha, hd, -, -⟩ := h c hct
    simp only [slugAllowed, Bool.or_eq_true] at hsa
    rcases hsa with ((h1 | h2) | h3) | h4
    · exfalso
      simp [isAsciiAlpha, h1] at ha
    · exact absurd h2 (by simp [hd])
    · exact Or.inl h3
    · exact Or.inr (by simpa using h4)
  have hdash : ∀ c ∈ wsToDashAux false ((t.toList.flatMap pyLowerFull).filter slugAllowed),
      c = '-' := by
    intro c hc
    rcases mem_wsToDashAux _ _ hc with h1 | ⟨h2, h3⟩
    · exact h1
    · rcases hfil c h2 with h4 | h4
      · rw [h4] at h3; cases h3
      · exact h4
  obtain ⟨-, hc2⟩ := collapse_alldash _ hdash
  unfold slugify slugifyL
  rcases hc2 with h0 | h0
  · rw [h0]; rfl
  · rw [h0]; rfl

/-- Closed instance of the corrected C10: a title of punctuation, whitespace
and hyphens slugifies to the empty string. -/
theorem c10_slug_empty_no_alnum_witness : slugify "?!* --" = "" :=
  c10_slug_empty_no_alnum "?!* --" (by decide)

/- ════════════════════ Lemmas and claims: Date Normalizer ═══════════════ -/

theorem dateLe_dtMin {y mo d : Nat} (h : dateValid y mo d = true) :
    dateLe dtMin ⟨y, mo, d⟩ = true := by
  simp only [dateValid, Bool.and_eq_true, Nat.ble_eq] at h
  simp only [dateLe, dtMin, Bool.or_eq_true, Bool.and_eq_true, Nat.blt_eq, beq_iff_eq,
    Nat.ble_eq]
  omega

theorem gate_some {cands : List (Nat × Nat × Nat × LC)} {dt : Date}
    (h : gate cands = some dt) : dateLe dtMin dt = true := by
  unfold gate at h
  split at h
  next y mo d rest heq =>
    split at h
    next hcond =>
      injection h with h2
      subst h2
      simp only [Bool.and_eq_true] at hcond
      exact dateLe_dtMin hcond.2
    next hcond => cases h
  next heq => cases h

/-- C5: the date normalizer is total — for every input string it returns a
comparable value at least the sentinel `datetime.min`, and whenever none of
the four accepted formats matches the stripped input, it returns exactly the
sentinel. -/
theorem c5_date_total (s : String) :
    dateLe dtMin (parse_date s) = true ∧
      (strptimeFullMonth (pyStrip s.toList) = none →
       strptimeIso (pyStrip s.toList) = none →
       strptimeAbbr (pyStrip s.toList) = none →
       strptimeDMY (pyStrip s.toList) = none →
       parse_date s = dtMin) := by
  constructor
  · simp only [parse_date]
    cases h1 : strptimeFullMonth (pyStrip s.toList) with
    | some d =>
      simp only [h1]
      exact gate_some h1
    | none =>
      simp only [h1]
      cases h2 : strptimeIso (pyStrip s.toList) with
      | some d =>
        simp only [h2]
        exact gate_some h2
      | none =>
        simp only [h2]
        cases h3 : strptimeAbbr (pyStrip s.toList) with
        | some d =>
          simp only [h3]
          exact gate_some h3
        | none =>
          simp only [h3]
          cases h4 : strptimeDMY (pyStrip s.toList) with
          | some d =>
            simp only [h4]
            exact gate_some h4
          | none =>
            simp only [h4]
            decide
  · intro h1 h2 h3 h4
    simp only [parse_date, h1, h2, h3, h4]

/-- Closed instance of C5: the unparseable string `"not a date"` yields the
sentinel, which is a valid comparison value. -/
theorem c5_date_total_witness :
    dateLe dtMin (parse_date "not a date") = true ∧ parse_date "not a date" = dtMin :=
  ⟨(c5_date_total "not a date").1,
   (c5_date_total "not a date").2 (by decide) (by decide) (by decide) (by decide)⟩

/-- C4: the three spellings of 25 February 2026 normalize to equal sort
keys; the empty string and `"not a date"` both normalize to the sentinel
minimum, which compares strictly below the valid date (so it sorts last when
ordering newest-first). -/
theorem c4_date_normalizer_examples :
    parse_date "February 25, 2026" = parse_date "2026-02-25" ∧
    parse_date "2026-02-25" = parse_date "25 February 2026" ∧
    parse_date "" = dtMin ∧
    parse_date "not a date" = dtMin ∧
    dateLt dtMin (parse_date "February 25, 2026") = true := by
  decide

/- ════════════════════ Claims: Frontmatter Splitter (C2) ════════════════ -/

/-- C2, corrected: when the frontmatter regex does not match (no leading
delimiter pair), `parse_frontmatter` returns an empty metadata mapping and
the body equal to the original text unchanged — it is not trimmed. -/
theorem c2_amended_no_frontmatter (content : LC) (h : fmMatch content = none) :
    parse_frontmatter content = ([], content) := by
  simp only [parse_frontmatter, h]

/-- Closed instance of the corrected C2. -/
theorem c2_amended_no_frontmatter_witness :
    parse_frontmatter "hello world".toList = ([], "hello world".toList) :=
  c2_amended_no_frontmatter _ (by decide)

/-- Counterexample to C2 as stated: `"hi\n"` has no leading delimiter pair,
and the returned body is the original text with its trailing newline — not
the trimmed text. -/
theorem c2_untrimmed_body :
    fmMatch "hi\n".toList = none ∧
    parse_frontmatter "hi\n".toList = ([], "hi\n".toList) ∧
    (parse_frontmatter "hi\n".toList).2 ≠ pyStrip "hi\n".toList := by
  refine ⟨by decide, by decide, by decide⟩

/- ════════════════════ Claim: Inline Formatter (C6) ═════════════════════ -/

/-- C6: on the specification's example line, the five passes produce exactly
one `<strong>` span wrapping `bold`, one `<em>` span wrapping `italic`, one
`<code>` span wrapping `code`, and one link to `http://x` wrapping `text` —
witnessed both by the exact output and by occurrence counts. -/
theorem c6_inline_formatter_spans :
    inline_format "**bold** and *italic* and `code` and [text](http://x)" =
      "<strong>bold</strong> and <em>italic</em> and <code>code</code> and <a href=\"http://x\">text</a>" ∧
    countSub "<strong>bold</strong>".toList
      (inlineFormat "**bold** and *italic* and `code` and [text](http://x)".toList) = 1 ∧
    countSub "<em>italic</em>".toList
      (inlineFormat "**bold** and *italic* and `code` and [text](http://x)".toList) = 1 ∧
    countSub "<code>code</code>".toList
      (inlineFormat "**bold** and *italic* and `code` and [text](http://x)".toList) = 1 ∧
    countSub "<a href=\"http://x\">text</a>".toList
      (inlineFormat "**bold** and *italic* and `code` and [text](http://x)".toList) = 1 := by
  refine ⟨by decide, by decide, by decide, by decide, by decide⟩

/- ═══════════════════ Lemmas and claims: Block Converter ════════════════ -/

theorem processLine_plain (st : MdState) (line : LC) (h : st.in_code = false)
    (hs : ¬ ("```".toList <+: pyStrip line))
    (hb : ¬ (['>', ' '] <+: pyStrip line)) :
    processLine st line = afterFlush (flushBq st) (pyStrip line) := by
  simp at hs hb
  simp [processLine, hs, h, hb]

theorem processLine_code (st : MdState) (line : LC) (h : st.in_code = true)
    (hs : ¬ ("```".toList <+: pyStrip line)) :
    processLine st line = { st with result := st.result ++ [htmlEscape line] } := by
  simp at hs
  simp [processLine, hs, h]

theorem processLine_fence_open (st : MdState) (line : LC) (h : st.in_code = false)
    (hs : "```".toList <+: pyStrip line) :
    processLine st line =
      { st with result := st.result ++ ["<pre><code>".toList], in_code := true } := by
  simp at hs
  simp [processLine, hs, h]

theorem processLine_fence_close (st : MdState) (line : LC) (h : st.in_code = true)
    (hs : "```".toList <+: pyStrip line) :
    processLine st line =
      { st with result := st.result ++ ["</code></pre>".toList], in_code := false } := by
  simp at hs
  simp [processLine, hs, h]

theorem foldl_code_lines (ls : List LC) : ∀ (st : MdState), st.in_code = true →
    (∀ l ∈ ls, ¬ ("```".toList <+: pyStrip l)) →
    List.foldl processLine st ls = { st with result := st.result ++ ls.map htmlEscape } := by
  induction ls with
  | nil => intro st _ _; simp
  | cons a as ih =>
    intro st h hall
    simp only [List.foldl_cons]
    rw [processLine_code st a h (hall a (List.mem_cons_self _ _))]
    rw [ih { st with result := st.result ++ [htmlEscape a] } h
      (fun l hl => hall l (List.mem_cons_of_mem _ hl))]
    simp

/-- C7: every line between an opening and a closing fence is emitted
HTML-escaped and verbatim (no inline formatting), until the closing fence
toggles the mode off. -/
theorem c7_code_fence_verbatim (ls : List LC)
    (h : ∀ l ∈ ls, ¬ ("```".toList <+: pyStrip l)) :
    mdLines ("```".toList :: ls ++ ["```".toList]) =
      "<pre><code>".toList :: ls.map htmlEscape ++ ["</code></pre>".toList] := by
  unfold mdLines
  rw [List.foldl_append, List.foldl_cons, List.foldl_cons]
  rw [processLine_fence_open initState _ rfl (by decide)]
  rw [foldl_code_lines ls _ rfl h]
  rw [processLine_fence_close _ _ rfl (by decide)]
  simp only [List.foldl_nil]
  simp [finalize, flushBq, initState]

/-- Closed instance of C7: a `<script>` line appears HTML-escaped and an
asterisk pair inside the fence stays literal. -/
theorem c7_code_fence_verbatim_witness :
    mdLines ["```".toList, "<script>alert(1)</script>".toList, "**x**".toList, "```".toList] =
      ["<pre><code>".toList, "&lt;script&gt;alert(1)&lt;/script&gt;".toList, "**x**".toList,
       "</code></pre>".toList] :=
  (c7_code_fence_verbatim ["<script>alert(1)</script>".toList, "**x**".toList]
    (by decide)).trans (by decide)

/-- C1, corrected: the block-mode flags are not mutually exclusive — after
the lines `1. a` and `- b`, the ordered-list and unordered-list modes are
both active, and the deferred closes are emitted at finalization, nesting
`</ul>` before `</ol>`. -/
theorem c1_amended_list_modes :
    mdLines ["1. a".toList, "- b".toList] =
      ["<ol>".toList, "<li>a</li>".toList, "<ul>".toList, "<li>b</li>".toList,
       "</ul>".toList, "</ol>".toList] ∧
    (List.foldl processLine initState ["1. a".toList, "- b".toList]).in_ol = true ∧
    (List.foldl processLine initState ["1. a".toList, "- b".toList]).in_list = true := by
  refine ⟨by decide, by decide, by decide⟩

/-- Counterexample to C1 as stated: after processing `1. a` then `- b`, the
unordered-list and ordered-list modes are simultaneously active, and no
`</ol>` fragment was emitted before the non-matching line was processed. -/
theorem c1_list_modes_overlap :
    (List.foldl processLine initState ["1. a".toList, "- b".toList]).in_list = true ∧
    (List.foldl processLine initState ["1. a".toList, "- b".toList]).in_ol = true ∧
    "</ol>".toList ∉ (List.foldl processLine initState ["1. a".toList, "- b".toList]).result := by
  refine ⟨by decide, by decide, by decide⟩

/-- Counterexample to C3 as stated: a line of four hyphens is not a
horizontal rule — it becomes a paragraph. -/
theorem c3_four_hyphens_paragraph :
    mdLines ["----".toList] = ["<p>----</p>".toList] ∧
    "<hr>".toList ∉ mdLines ["----".toList] := by
  refine ⟨by decide, by decide⟩

/-- C3, corrected: a line whose stripped form is exactly `---`, `***` or
`___` (ignoring surrounding whitespace) emits a horizontal-rule fragment. -/
theorem c3_amended_exact_rule (line : LC)
    (h : pyStrip line = "---".toList ∨ pyStrip line = "***".toList ∨
      pyStrip line = "___".toList) :
    mdLines [line] = ["<hr>".toList] := by
  have hstep : processLine initState line = afterFlush (flushBq initState) (pyStrip line) := by
    apply processLine_plain
    · rfl
    · rcases h with h | h | h <;> rw [h] <;> decide
    · rcases h with h | h | h <;> rw [h] <;> decide
  unfold mdLines
  simp only [List.foldl_cons, List.foldl_nil, hstep]
  rcases h with h | h | h <;> rw [h] <;> decide

/-- Closed instance of the corrected C3: surrounding whitespace is
ignored. -/
theorem c3_amended_exact_rule_witness :
    mdLines ["  ---  ".toList] = ["<hr>".toList] :=
  c3_amended_exact_rule "  ---  ".toList (by decide)

theorem dropWhile_append_nonws {t : LC} : ∀ {l : LC}, (∃ x ∈ l, isPySpace x = false) →
    List.dropWhile isPySpace (l ++ t) = List.dropWhile isPySpace l ++ t := by
  intro l
  induction l with
  | nil =>
    rintro ⟨x, hx, -⟩
    simp at hx
  | cons a as ih =>
    rintro ⟨x, hx, hxf⟩
    by_cases ha : isPySpace a
    · have hex : ∃ y ∈ as, isPySpace y = false := by
        rcases List.mem_cons.mp hx with rfl | hx2
        · exact absurd ha (by simp [hxf])
        · exact ⟨x, hx2, hxf⟩
      simp only [List.cons_append]
      simp only [List.dropWhile, ha, if_true]
      exact ih hex
    · have ha' : isPySpace a = false := by
        cases h2 : isPySpace a
        · rfl
        · exact absurd h2 ha
      simp [List.dropWhile, ha']

theorem pyStrip_dash_line {r : LC} (h : ∃ x ∈ r, isPySpace x = false) :
    pyStrip ('-' :: ' ' :: r) = '-' :: ' ' :: pyRstrip r := by
  unfold pyStrip pyRstrip
  have h1 : List.dropWhile isPySpace ('-' :: ' ' :: r) = '-' :: ' ' :: r := by
    simp [List.dropWhile, isPySpace]
  rw [h1]
  have h2 : ('-' :: ' ' :: r).reverse = r.reverse ++ [' ', '-'] := by simp
  rw [h2]
  have h3 : ∃ x ∈ r.reverse, isPySpace x = false := by
    rcases h with ⟨x, hx, hxf⟩
    exact ⟨x, List.mem_reverse.mpr hx, hxf⟩
  rw [dropWhile_append_nonws h3]
  simp

theorem ulContent_dash (w : LC) :
    ulContent ('-' :: ' ' :: w) = List.dropWhile isPySpace w := by
  simp [ulContent, List.dropWhile, isPySpace]

theorem headingMatch_dash (w : LC) : headingMatch ('-' :: ' ' :: w) = none := by
  simp [headingMatch, List.takeWhile]

theorem hrMatch_dash (w : LC) : ¬ hrMatch ('-' :: ' ' :: w) := by
  rintro ⟨hc1 | hc1 | hc1, -⟩ <;> simp at hc1

theorem ulMatch_dash (w : LC) : ulMatch ('-' :: ' ' :: w) = true := by
  simp [ulMatch, isPySpace]

theorem afterFlush_dash (st : MdState) (w : LC) :
    afterFlush st ('-' :: ' ' :: w) = ulBranch st ('-' :: ' ' :: w) := by
  simp [afterFlush, headingMatch_dash, hrMatch_dash, ulMatch_dash]

theorem ulStepOpen (st : MdState) (r : LC) (hc : st.in_code = false)
    (hb : st.in_blockquote = false) (hl : st.in_list = false)
    (h : ∃ x ∈ r, isPySpace x = false) :
    processLine st ('-' :: ' ' :: r) =
      { st with
        result := st.result ++
          ["<ul>".toList, liFrag (List.dropWhile isPySpace (pyRstrip r))],
        in_list := true } := by
  have hstrip := pyStrip_dash_line h
  have hpre : ¬ ("```".toList <+: pyStrip ('-' :: ' ' :: r)) := by
    rw [hstrip]
    rintro ⟨t, ht⟩
    simp at ht
  have hbq : ¬ (['>', ' '] <+: pyStrip ('-' :: ' ' :: r)) := by
    rw [hstrip]
    rintro ⟨t, ht⟩
    simp at ht
  rw [processLine_plain st _ hc hpre hbq, hstrip]
  rw [show flushBq st = st from by simp [flushBq, hb]]
  rw [afterFlush_dash]
  simp [ulBranch, hl, ulContent_dash]

theorem ulStepItem (st : MdState) (r : LC) (hc : st.in_code = false)
    (hb : st.in_blockquote = false) (hl : st.in_list = true)
    (h : ∃ x ∈ r, isPySpace x = false) :
    processLine st ('-' :: ' ' :: r) =
      { st with
        result := st.result ++ [liFrag (List.dropWhile isPySpace (pyRstrip r))] } := by
  have hstrip := pyStrip_dash_line h
  have hpre : ¬ ("```".toList <+: pyStrip ('-' :: ' ' :: r)) := by
    rw [hstrip]
    rintro ⟨t, ht⟩
    simp at ht
  have hbq : ¬ (['>', ' '] <+: pyStrip ('-' :: ' ' :: r)) := by
    rw [hstrip]
    rintro ⟨t, ht⟩
    simp at ht
  rw [processLine_plain st _ hc hpre hbq, hstrip]
  rw [show flushBq st = st from by simp [flushBq, hb]]
  rw [afterFlush_dash]
  simp [ulBranch, hl, ulContent_dash]

/-- C8, corrected: three consecutive lines of the form `- <content>` whose
content has at least one non-whitespace character produce exactly one
`<ul>` open fragment, three `<li>` item fragments, and one `</ul>` close
fragment — a single list. -/
theorem c8_amended_single_list (r1 r2 r3 : LC)
    (h1 : ∃ x ∈ r1, isPySpace x = false) (h2 : ∃ x ∈ r2, isPySpace x = false)
    (h3 : ∃ x ∈ r3, isPySpace x = false) :
    mdLines ['-' :: ' ' :: r1, '-' :: ' ' :: r2, '-' :: ' ' :: r3] =
      ["<ul>".toList,
       liFrag (List.dropWhile isPySpace (pyRstrip r1)),
       liFrag (List.dropWhile isPySpace (pyRstrip r2)),
       liFrag (List.dropWhile isPySpace (pyRstrip r3)),
       "</ul>".toList] := by
  unfold mdLines
  simp only [List.foldl_cons, List.foldl_nil]
  rw [ulStepOpen initState r1 rfl rfl rfl h1]
  rw [ulStepItem _ r2 rfl rfl rfl h2]
  rw [ulStepItem _ r3 rfl rfl rfl h3]
  simp [finalize, flushBq, initState]

/-- Closed instance of the corrected C8. -/
theorem c8_amended_single_list_witness :
    mdLines ["- one".toList, "- two".toList, "- three".toList] =
      ["<ul>".toList, "<li>one</li>".toList, "<li>two</li>".toList,
       "<li>three</li>".toList, "</ul>".toList] :=
  (c8_amended_single_list "one".toList "two".toList "three".toList
    (by decide) (by decide) (by decide)).trans (by decide)

/-- Counterexample to C8 as stated: three lines consisting of exactly the
marker `- ` (so each starts with `- `, with only whitespace after the
marker) produce three paragraphs and no list at all. -/
theorem c8_marker_only_lines :
    mdLines ["- ".toList, "- ".toList, "- ".toList] =
      ["<p>-</p>".toList, "<p>-</p>".toList, "<p>-</p>".toList] ∧
    "<ul>".toList ∉ mdLines ["- ".toList, "- ".toList, "- ".toList] := by
  refine ⟨by decide, by decide⟩
